import Mathlib

/-!
Shallow embedding of kb10uy/raw-twitter (src/main.rs), a CLI that signs one
HTTP request with OAuth 1.0a (HMAC-SHA1) and sends it.

Rust strings are modelled as their UTF-8 byte sequences, `List Nat` with every
element below 256.  All string operations the program performs (formatting,
splitting on a byte, byte-lexicographic sorting, joining) are byte-faithful
under this view, since Rust `String` ordering and `str::split` are defined on
bytes / code points in a way UTF-8 preserves.
-/

namespace RawTwitter

/-- UTF-8 bytes of an ASCII string literal (all source literals are ASCII). -/
def bytes (s : String) : List Nat := s.data.map Char.toNat

/-- The escape set built at src/main.rs lines 23-50: `RFC3986_ESCAPES`, an
`AsciiSet` starting from the `CONTROLS` set of the percent-encoding crate and adding
the 23 listed ASCII punctuation bytes.  Stored here as the added bytes. -/
def RFC3986_ESCAPES : List Nat :=
  [0x22, 0x23, 0x3C, 0x3E,
   0x3F, 0x60, 0x7B, 0x7D,
   0x2F, 0x3A, 0x3B, 0x3D, 0x40, 0x5B, 0x5C, 0x5D, 0x5E, 0x7C,
   0x24, 0x25, 0x26, 0x2B, 0x2C]

/-- The `CONTROLS` set of the percent-encoding crate: C0 controls 0x00-0x1F and
DEL 0x7F. -/
def inControls (b : Nat) : Bool := b ≤ 0x1F || b == 0x7F

/-- The percent-encoding crate escapes a byte iff it is non-ASCII or in the
given `AsciiSet`; here the set is `RFC3986_ESCAPES` over `CONTROLS`. -/
def shouldPercentEncode (b : Nat) : Bool :=
  !(b < 0x80) || inControls b || RFC3986_ESCAPES.contains b

/-- Uppercase hexadecimal digit byte for a nibble, as in the percent-encoding
digit table of the percent-encoding crate. -/
def hexDigit (n : Nat) : Nat := if n < 10 then 0x30 + n else 0x37 + n

/-- Escaped form of one byte: a percent sign and two uppercase hex digits. -/
def percentEncodeByte (b : Nat) : List Nat :=
  [0x25, hexDigit (b / 16), hexDigit (b % 16)]

/-- The function `utf8_percent_encode` of the percent-encoding crate, applied with `RFC3986_ESCAPES`: each
byte is either passed through or replaced by its `%XX` escape. -/
def utf8_percent_encode : List Nat → List Nat
  | [] => []
  | b :: rest =>
    (if shouldPercentEncode b then percentEncodeByte b else [b]) ++
      utf8_percent_encode rest

/-- Unreserved byte per RFC 3986: ALPHA / DIGIT / - . _ ~ . -/
def isUnreservedByte (b : Nat) : Bool :=
  (0x41 ≤ b && b ≤ 0x5A) || (0x61 ≤ b && b ≤ 0x7A) ||
  (0x30 ≤ b && b ≤ 0x39) || b == 0x2D || b == 0x2E || b == 0x5F || b == 0x7E

/-- Modelled from the spec: the alphabet the spec asserts for encoder output,
the unreserved bytes plus the percent sign. -/
def specOutputByte (b : Nat) : Bool := isUnreservedByte b || b == 0x25

/-- Uppercase hex digit byte (0-9, A-F). -/
def isUpperHexDigit (b : Nat) : Bool :=
  (0x30 ≤ b && b ≤ 0x39) || (0x41 ≤ b && b ≤ 0x46)

/-- src/main.rs lines 20-22: the sixteen lowercase hex characters the nonce is
drawn from. -/
def NONCE_CHARS : List Char := String.data "0123456789abcdef"

/-- Output contract of `SliceRandom::choose_multiple(rng, amount)` from the rand crate
(called at src/main.rs line 157): it samples without replacement, returning
`min amount slice.length` distinct elements of the slice (when the slice is
shorter than `amount`, all of its elements in random order).  Any value the
call can produce satisfies this predicate. -/
def IsChooseMultipleOutput (slice : List Char) (amount : Nat) (out : List Char) : Prop :=
  out.length = min amount slice.length ∧ out.Nodup ∧ ∀ c ∈ out, c ∈ slice

/-- Modelled from the spec: the property the spec asserts of a freshly
generated nonce string. -/
def specNonceOk (out : List Char) : Prop :=
  out.length = 32 ∧ ∀ c ∈ out, c ∈ NONCE_CHARS

/-- serde_json `Value` as used by the `parameters` map of the template.  Only the
constructor tag and, for scalars, the rendered text matter to the program:
a `Number` is modelled by the decimal text `n.to_string()` produces, and the
contents of arrays / objects are never inspected (that match arm panics). -/
inductive Value where
  | str (s : List Nat)
  | num (text : List Nat)
  | bool (b : Bool)
  | arr
  | obj
  | null
deriving DecidableEq, Repr

/-- Scalar tags: the three `Value` shapes the parameter encoder accepts. -/
def Value.isScalar : Value → Bool
  | .str _ => true
  | .num _ => true
  | .bool _ => true
  | _ => false

/-- Recognizer for the string constructor of `Value`. -/
def Value.isStr : Value → Bool
  | .str _ => true
  | _ => false

/-- src/main.rs lines 85-97: the HTTP method enum. -/
inductive Method where
  | get
  | post
  | put
  | delete
deriving DecidableEq, Repr

/-- src/main.rs lines 99-108: `Method::to_string`, the literal uppercase verb
name used in the signature base string. -/
def Method.toVerbString : Method → List Nat
  | .get => bytes "GET"
  | .post => bytes "POST"
  | .put => bytes "PUT"
  | .delete => bytes "DELETE"

/-- src/main.rs lines 244-249: the `surf::{get, post, put, delete}` dispatch.
Each constructor performs the HTTP verb of the same name; the model records
the name of that verb. -/
def dispatchVerb : Method → List Nat
  | .get => bytes "GET"
  | .post => bytes "POST"
  | .put => bytes "PUT"
  | .delete => bytes "DELETE"

/-- src/main.rs lines 110-121: the request template.  `parameters` is a
`BTreeMap`, modelled as an association list ordered by key (the `btInsert`
operation below maintains that order). -/
structure Template where
  endpoint : List Nat
  method : Method
  parameters : List (List Nat × Value)
deriving DecidableEq, Repr

/-- `BTreeMap::insert` on a key-ordered association list: insert before the
first larger key, replace an equal key. -/
def btInsert (m : List (List Nat × Value)) (k : List Nat) (v : Value) :
    List (List Nat × Value) :=
  match m with
  | [] => [(k, v)]
  | (k', v') :: rest =>
    if k < k' then (k, v) :: (k', v') :: rest
    else if k = k' then (k, v) :: rest
    else (k', v') :: btInsert rest k v

/-- `BTreeMap::get`: first binding of the key, scanning the list. -/
def lookupKey (m : List (List Nat × Value)) (k : List Nat) : Option Value :=
  match m with
  | [] => none
  | (k', v') :: rest => if k = k' then some v' else lookupKey rest k

/-- Build a `BTreeMap` by inserting the bindings of a list in order, i.e. the
map `serde_json` produces from the JSON object of the template. -/
def btFromList (l : List (List Nat × Value)) : List (List Nat × Value) :=
  l.foldl (fun acc kv => btInsert acc kv.1 kv.2) []

/-- Rust `str::split(sep)` over bytes: all separator-delimited segments (an
empty input yields one empty segment, a trailing separator an empty last
segment).  The separator `'='` is ASCII, so the byte-level split agrees with
the char-level one. -/
def splitByte (sep : Nat) : List Nat → List (List Nat)
  | [] => [[]]
  | b :: rest =>
    if b = sep then [] :: splitByte sep rest
    else
      match splitByte sep rest with
      | [] => [[b]]
      | s :: ss => (b :: s) :: ss

/-- src/main.rs lines 173-175: `op.split('=').take(2)` and the guarded match.
Returns the key/value pair to insert, or `none` for the skip-with-warning
arm (no `=` at all, or an empty key). -/
def parseOverride (op : List Nat) : Option (List Nat × List Nat) :=
  let kv := (splitByte 0x3D op).take 2
  match kv.get? 0, kv.get? 1 with
  | some k, some v => if k = [] then none else some (k, v)
  | _, _ => none

/-- One iteration of the override loop at src/main.rs lines 172-182: insert
the parsed pair as a string value, or count one `warn!` emission and keep
going. -/
def mergeStep (acc : List (List Nat × Value) × Nat) (op : List Nat) :
    List (List Nat × Value) × Nat :=
  match parseOverride op with
  | some kv => (btInsert acc.1 kv.1 (.str kv.2), acc.2)
  | none => (acc.1, acc.2 + 1)

/-- src/main.rs lines 171-182: fold the CLI override strings into the cloned
template parameters.  Also counts the `warn!` emissions so that the
skip-with-warning behaviour is visible; the loop never aborts. -/
def mergeOverrides (m : List (List Nat × Value)) (ops : List (List Nat)) :
    List (List Nat × Value) × Nat :=
  ops.foldl mergeStep (m, 0)

/-- src/main.rs lines 190-195: the value part of a request-parameter pair.
Strings are percent-encoded, numbers and booleans rendered as their literal
text; any other `Value` hits `unreachable!("Invalid data type")`, a panic
modelled as `none`. -/
def encodeValue : Value → Option (List Nat)
  | .str s => some (utf8_percent_encode s)
  | .num t => some t
  | .bool b => some (if b then bytes "true" else bytes "false")
  | _ => none

/-- src/main.rs lines 186-196: one `format!`-built request pair, the raw key,
an equals sign and the encoded value. -/
def requestPairString (k : List Nat) (v : Value) : Option (List Nat) :=
  (encodeValue v).map (fun ev => k ++ 0x3D :: ev)

/-- src/main.rs line 201: one OAuth-parameter pair, the raw key, an equals
sign and the percent-encoded value (OAuth values are plain strings). -/
def oauthPairString (k v : List Nat) : List Nat := k ++ 0x3D :: utf8_percent_encode v

/-- All request-parameter pairs, failing (panicking) on the first value that
is not a scalar, as the iterator at lines 184-197 does. -/
def mapPairStrings : List (List Nat × Value) → Option (List (List Nat))
  | [] => some []
  | kv :: rest =>
    match requestPairString kv.1 kv.2, mapPairStrings rest with
    | some p, some ps => some (p :: ps)
    | _, _ => none

/-- The OAuth pairs chained after the request pairs (lines 198-202). -/
def oauthPairs (o : List (List Nat × List Nat)) : List (List Nat) :=
  o.map (fun kv => oauthPairString kv.1 kv.2)

/-- Lines 184-204: collect both pair families and `sort()` them, i.e. sort
byte-lexicographically over the fully-encoded pair strings. -/
def normalizedPairs (rp : List (List Nat × Value)) (op : List (List Nat × List Nat)) :
    Option (List (List Nat)) :=
  (mapPairStrings rp).map (fun l => List.insertionSort (· ≤ ·) (l ++ oauthPairs op))

/-- Rust `Vec::join("&")`. -/
def joinAmp : List (List Nat) → List Nat
  | [] => []
  | [s] => s
  | s :: rest => s ++ 0x26 :: joinAmp rest

/-- Line 210: `connected_params`, the normalized parameter string. -/
def connected_params (rp : List (List Nat × Value)) (op : List (List Nat × List Nat)) :
    Option (List Nat) :=
  (normalizedPairs rp op).map joinAmp

/-- Line 207: the endpoint URL. -/
def endpoint_url (t : Template) : List Nat :=
  bytes "https://api.twitter.com/1.1/" ++ t.endpoint

/-- Lines 211-216: the signature base string. -/
def signature_base (m : Method) (url cp : List Nat) : List Nat :=
  m.toVerbString ++ 0x26 :: utf8_percent_encode url ++ 0x26 :: utf8_percent_encode cp

/-- Lines 218-221: the HMAC-SHA1 signing key, the two secrets joined raw with
an ampersand. -/
def signature_key (consumer_secret access_token_secret : List Nat) : List Nat :=
  consumer_secret ++ 0x26 :: access_token_secret

/-- Modelled from the spec: the signing key described by step 6 of the spec,
both secrets percent-encoded before the join. -/
def signature_key_spec (consumer_secret access_token_secret : List Nat) : List Nat :=
  utf8_percent_encode consumer_secret ++ 0x26 :: utf8_percent_encode access_token_secret

/-- The observable shape of the one outbound request, as far as the claims
are concerned: the verb the `surf` dispatch performs, the URL, the normalized
parameter string and the signature base string built from them. -/
structure SentRequest where
  verb : List Nat
  url : List Nat
  connected : List Nat
  signatureBase : List Nat
deriving DecidableEq, Repr

/-- The slice of `main` (src/main.rs lines 170-259) the claims quantify over:
merge overrides into the template parameters, build the normalized parameter
string (panicking, i.e. `none`, on a non-scalar value), then build the
signature base and dispatch the request.  A `none` means the process dies
before `surf` is called, so no HTTP request is sent. -/
def runMain (t : Template) (overrides : List (List Nat))
    (oauth_params : List (List Nat × List Nat)) : Option SentRequest :=
  match connected_params (mergeOverrides t.parameters overrides).1 oauth_params with
  | none => none
  | some cp =>
    some { verb := dispatchVerb t.method
           url := endpoint_url t
           connected := cp
           signatureBase := signature_base t.method (endpoint_url t) cp }

/-- Concrete sample template used by witnesses: a parameterless DELETE. -/
def deleteTemplate : Template :=
  { endpoint := bytes "x.json", method := .delete, parameters := [] }

/-- The request `runMain` sends for `deleteTemplate` with no overrides and no
OAuth parameters. -/
def deleteRequest : SentRequest :=
  { verb := bytes "DELETE"
    url := endpoint_url deleteTemplate
    connected := []
    signatureBase := signature_base .delete (endpoint_url deleteTemplate) [] }

/-- Concrete sample template used by witnesses: one parameter whose value is
a JSON array (a non-scalar). -/
def arrayTemplate : Template :=
  { endpoint := bytes "e.json", method := .get, parameters := [(bytes "ids", .arr)] }

end RawTwitter

namespace RawTwitter

/-! ### Helper lemmas -/

/-- A byte below 16 renders as an uppercase hex digit. -/
theorem hexDigit_upper : ∀ n, n < 16 → isUpperHexDigit (hexDigit n) = true := by
  decide

/-- Percent-encoding is the identity on byte strings containing no byte of
the escape set. -/
theorem utf8_percent_encode_id (s : List Nat)
    (h : ∀ b ∈ s, shouldPercentEncode b = false) : utf8_percent_encode s = s := by
  induction s with
  | nil => rfl
  | cons a rest ih =>
    have ha : shouldPercentEncode a = false := h a (List.mem_cons_self a rest)
    have hr := ih (fun b hb => h b (List.mem_cons_of_mem a hb))
    simp [utf8_percent_encode, ha, hr]

/-! ### Claim C1 -/

/-- Claim C1: the oauth_nonce generation at src/main.rs lines 154-158 asks
`choose_multiple` for 32 characters, but `choose_multiple` samples without
replacement and returns at most the population size.  Every possible output
has exactly 16 characters (all sixteen hex digits, each once), so the nonce
is never the 32-character uniformly-drawn string the spec requires;
only the alphabet part of the claim holds. -/
theorem nonce_length_sixteen_not_thirtytwo (out : List Char)
    (h : IsChooseMultipleOutput NONCE_CHARS 32 out) :
    out.length = 16 ∧ ¬ specNonceOk out ∧ (∀ c, c ∈ out → c ∈ NONCE_CHARS) := by
  obtain ⟨hlen, hnd, hmem⟩ := h
  have h16 : out.length = 16 := hlen.trans (by decide)
  refine ⟨h16, ?_, fun c hc => hmem c hc⟩
  intro hs
  have h32 : out.length = 32 := hs.1
  omega

/-- Witness for C1: the full alphabet in its given order is a possible
`choose_multiple` output, and its length is 16. -/
theorem nonce_length_sixteen_not_thirtytwo_witness : NONCE_CHARS.length = 16 :=
  (nonce_length_sixteen_not_thirtytwo NONCE_CHARS
    ⟨by decide, by decide, fun c hc => hc⟩).1

/-! ### Claim C2 -/

/-- Counterexample to claim C2: space, exclamation mark, single quote, both
parentheses and asterisk pass through the encoder unescaped, so the output is
not confined to the unreserved-plus-percent alphabet the spec asserts. -/
theorem percent_encoder_space_unescaped :
    utf8_percent_encode [0x20, 0x21, 0x27, 0x28, 0x29, 0x2A] =
      [0x20, 0x21, 0x27, 0x28, 0x29, 0x2A] ∧
    ¬ (∀ b ∈ utf8_percent_encode [0x20], specOutputByte b = true) := by
  exact ⟨by decide, by decide⟩

/-- Claim C2 (amended): every output byte of the encoder is either a byte the
escape set leaves alone (which includes space, exclamation mark, single
quote, parentheses and asterisk, all outside the unreserved set), or a
percent sign, or an uppercase hex digit of an escape triple. -/
theorem percent_encoder_output_bytes (s : List Nat) (b : Nat)
    (hs : ∀ a ∈ s, a < 256) (hb : b ∈ utf8_percent_encode s) :
    shouldPercentEncode b = false ∨ b = 0x25 ∨ isUpperHexDigit b = true := by
  induction s with
  | nil => cases hb
  | cons a rest ih =>
    have ha : a < 256 := hs a (List.mem_cons_self a rest)
    have hrest : ∀ x ∈ rest, x < 256 := fun x hx => hs x (List.mem_cons_of_mem a hx)
    rw [utf8_percent_encode] at hb
    rcases List.mem_append.1 hb with hhead | htail
    · by_cases hesc : shouldPercentEncode a = true
      · rw [if_pos hesc] at hhead
        simp only [percentEncodeByte, List.mem_cons, List.not_mem_nil, or_false] at hhead
        rcases hhead with h25 | hhi | hlo
        · exact Or.inr (Or.inl h25)
        · refine Or.inr (Or.inr ?_)
          rw [hhi]
          exact hexDigit_upper (a / 16) (Nat.div_lt_of_lt_mul (by omega))
        · refine Or.inr (Or.inr ?_)
          rw [hlo]
          exact hexDigit_upper (a % 16) (Nat.mod_lt a (by decide))
      · rw [if_neg hesc] at hhead
        simp only [List.mem_cons, List.not_mem_nil, or_false] at hhead
        subst hhead
        exact Or.inl (Bool.not_eq_true _ ▸ hesc)
    · exact ih hrest htail

/-- Witness for C2 (amended): the percent sign of an escape triple in the
encoding of an ampersand. -/
theorem percent_encoder_output_bytes_witness :
    shouldPercentEncode 0x25 = false ∨ (0x25 : Nat) = 0x25 ∨ isUpperHexDigit 0x25 = true :=
  percent_encoder_output_bytes [0x26] 0x25 (by decide) (by decide)

/-! ### Claim C3 -/

/-- Counterexample to claim C3: with a consumer secret containing an
ampersand, the signing key built at src/main.rs lines 218-221 differs from
the percent-encoded construction the spec describes. -/
theorem signing_key_counterexample :
    signature_key (bytes "a&b") (bytes "x") ≠
      signature_key_spec (bytes "a&b") (bytes "x") := by
  decide

/-- Claim C3 (amended): the signing key is the raw concatenation of the two
secrets with an ampersand, with no percent-encoding; it coincides with the
percent-encoded construction of the spec exactly when neither secret
contains a byte of the escape set. -/
theorem signing_key_raw (cs ats : List Nat)
    (hcs : ∀ b ∈ cs, shouldPercentEncode b = false)
    (hats : ∀ b ∈ ats, shouldPercentEncode b = false) :
    signature_key cs ats = cs ++ 0x26 :: ats ∧
    signature_key cs ats = signature_key_spec cs ats := by
  refine ⟨rfl, ?_⟩
  unfold signature_key signature_key_spec
  rw [utf8_percent_encode_id cs hcs, utf8_percent_encode_id ats hats]

/-- Witness for C3 (amended) at escape-free secrets. -/
theorem signing_key_raw_witness :
    signature_key (bytes "secret") (bytes "token") = bytes "secret" ++ 0x26 :: bytes "token" ∧
    signature_key (bytes "secret") (bytes "token") =
      signature_key_spec (bytes "secret") (bytes "token") :=
  signing_key_raw (bytes "secret") (bytes "token") (by decide) (by decide)

end RawTwitter

namespace RawTwitter

/-! ### Claim C4 -/

/-- Counterexample to claim C4: a key containing an ampersand appears raw in
its pair string; it is not the percent-encoding of the raw key. -/
theorem pair_key_not_encoded :
    requestPairString (bytes "a&b") (.str (bytes "x")) =
      some (bytes "a&b" ++ 0x3D :: bytes "x") ∧
    utf8_percent_encode (bytes "a&b") ≠ bytes "a&b" := by
  exact ⟨by decide, by decide⟩

/-- Claim C4 (amended): in each combined pair string the key is emitted raw,
so it agrees with the percent-encoding of the raw key only when the key has
no escaped byte; string values are percent-encoded, numeric and boolean
values are emitted as literal text, and OAuth parameter values are
percent-encoded. -/
theorem pair_strings_raw_key (k s t : List Nat) (b : Bool)
    (hk : ∀ c ∈ k, shouldPercentEncode c = false) :
    requestPairString k (.str s) = some (k ++ 0x3D :: utf8_percent_encode s) ∧
    requestPairString k (.num t) = some (k ++ 0x3D :: t) ∧
    requestPairString k (.bool b) =
      some (k ++ 0x3D :: (if b then bytes "true" else bytes "false")) ∧
    oauthPairString k s = k ++ 0x3D :: utf8_percent_encode s ∧
    utf8_percent_encode k = k :=
  ⟨rfl, rfl, rfl, rfl, utf8_percent_encode_id k hk⟩

/-- Witness for C4 (amended) at a concrete escape-free key. -/
theorem pair_strings_raw_key_witness :
    requestPairString (bytes "status") (.str (bytes "a b")) =
      some (bytes "status" ++ 0x3D :: utf8_percent_encode (bytes "a b")) ∧
    requestPairString (bytes "status") (.num (bytes "12")) =
      some (bytes "status" ++ 0x3D :: bytes "12") ∧
    requestPairString (bytes "status") (.bool true) =
      some (bytes "status" ++ 0x3D :: (if true then bytes "true" else bytes "false")) ∧
    oauthPairString (bytes "status") (bytes "a b") =
      bytes "status" ++ 0x3D :: utf8_percent_encode (bytes "a b") ∧
    utf8_percent_encode (bytes "status") = bytes "status" :=
  pair_strings_raw_key (bytes "status") (bytes "a b") (bytes "12") true (by decide)

/-! ### Claim C5 -/

/-- Claim C5: whenever a request is sent, its signature base string is the
verb literal, the percent-encoded endpoint URL and the percent-encoded
normalized parameter string joined by ampersands; the verb literal in the
base string is `Method::to_string` of the template method and is the same
verb name the surf dispatch performs, DELETE included. -/
theorem signature_base_matches_dispatch (t : Template) (ov : List (List Nat))
    (op : List (List Nat × List Nat)) (req : SentRequest)
    (h : runMain t ov op = some req) :
    req.signatureBase =
      req.verb ++ 0x26 :: utf8_percent_encode req.url ++
        0x26 :: utf8_percent_encode req.connected ∧
    req.verb = t.method.toVerbString ∧
    req.verb = dispatchVerb t.method ∧
    Method.delete.toVerbString = bytes "DELETE" ∧
    Method.delete.toVerbString = dispatchVerb .delete := by
  unfold runMain at h
  cases hc : connected_params ((mergeOverrides t.parameters ov).1) op with
  | none => rw [hc] at h; cases h
  | some cp =>
    rw [hc] at h
    cases h
    refine ⟨?_, ?_, rfl, rfl, rfl⟩
    · show signature_base t.method (endpoint_url t) cp =
        dispatchVerb t.method ++ 0x26 :: utf8_percent_encode (endpoint_url t) ++
          0x26 :: utf8_percent_encode cp
      cases t.method <;> rfl
    · show dispatchVerb t.method = t.method.toVerbString
      cases t.method <;> rfl

/-- Witness for C5 at the sample DELETE template. -/
theorem signature_base_matches_dispatch_witness :
    deleteRequest.signatureBase =
      deleteRequest.verb ++ 0x26 :: utf8_percent_encode deleteRequest.url ++
        0x26 :: utf8_percent_encode deleteRequest.connected ∧
    deleteRequest.verb = deleteTemplate.method.toVerbString ∧
    deleteRequest.verb = dispatchVerb deleteTemplate.method ∧
    Method.delete.toVerbString = bytes "DELETE" ∧
    Method.delete.toVerbString = dispatchVerb .delete :=
  signature_base_matches_dispatch deleteTemplate [] [] deleteRequest (by decide)

end RawTwitter

namespace RawTwitter

/-! ### Override parsing lemmas -/

/-- Splitting never yields an empty segment list. -/
theorem splitByte_ne_nil (sep : Nat) : ∀ l, splitByte sep l ≠ []
  | [] => by simp [splitByte]
  | b :: rest => by
    simp only [splitByte]
    split
    · simp
    · split
      · simp
      · simp

/-- Splitting a separator-free string yields that one segment. -/
theorem splitByte_no_sep (sep : Nat) (l : List Nat) (h : sep ∉ l) :
    splitByte sep l = [l] := by
  induction l with
  | nil => rfl
  | cons b rest ih =>
    have hb : b ≠ sep := fun e => h (e ▸ List.mem_cons_self b rest)
    have hr : sep ∉ rest := fun hm => h (List.mem_cons_of_mem b hm)
    simp [splitByte, hb, ih hr]

/-- Splitting at the first separator, when the head segment is
separator-free, peels off that segment. -/
theorem splitByte_append (sep : Nat) (k rest : List Nat) (hk : sep ∉ k) :
    splitByte sep (k ++ sep :: rest) = k :: splitByte sep rest := by
  induction k with
  | nil => simp [splitByte]
  | cons b kb ih =>
    have hb : b ≠ sep := fun e => hk (e ▸ List.mem_cons_self b kb)
    have hkb : sep ∉ kb := fun hm => hk (List.mem_cons_of_mem b hm)
    rw [List.cons_append, splitByte, if_neg hb, ih hkb]

/-- A well-formed single-equals override parses to its key and value. -/
theorem parseOverride_single (k v : List Nat) (hk : k ≠ []) (hks : 0x3D ∉ k)
    (hvs : 0x3D ∉ v) : parseOverride (k ++ 0x3D :: v) = some (k, v) := by
  unfold parseOverride
  rw [splitByte_append _ _ _ hks, splitByte_no_sep _ _ hvs]
  simp [hk]

/-- An override with a second equals sign keeps only the segment between the
first two separators as its value. -/
theorem parseOverride_two_eq (k v w : List Nat) (hk : k ≠ []) (hks : 0x3D ∉ k)
    (hvs : 0x3D ∉ v) : parseOverride (k ++ 0x3D :: (v ++ 0x3D :: w)) = some (k, v) := by
  unfold parseOverride
  rw [splitByte_append _ _ _ hks, splitByte_append _ _ _ hvs]
  simp [hk]

/-- An override with no equals sign is rejected. -/
theorem parseOverride_no_eq (op : List Nat) (h : 0x3D ∉ op) :
    parseOverride op = none := by
  unfold parseOverride
  rw [splitByte_no_sep _ _ h]
  rfl

/-- An override whose key is empty is rejected. -/
theorem parseOverride_empty_key (w : List Nat) :
    parseOverride (0x3D :: w) = none := by
  unfold parseOverride
  have h : splitByte 0x3D (0x3D :: w) = [] :: splitByte 0x3D w := by
    simp [splitByte]
  rw [h]
  cases hs : splitByte 0x3D w with
  | nil => exact absurd hs (splitByte_ne_nil _ _)
  | cons s ss => simp

/-- The override fold threads its warning counter additively. -/
theorem mergeStep_counter : ∀ (ops : List (List Nat)) (m : List (List Nat × Value)) (w : Nat),
    ops.foldl mergeStep (m, w) =
      ((ops.foldl mergeStep (m, 0)).1, (ops.foldl mergeStep (m, 0)).2 + w) := by
  intro ops
  induction ops with
  | nil => intro m w; simp
  | cons op ops ih =>
    intro m w
    simp only [List.foldl_cons, mergeStep]
    cases hp : parseOverride op with
    | none =>
      simp only []
      rw [ih m (w + 1), ih m 1]
      rw [Prod.ext_iff]
      exact ⟨rfl, by omega⟩
    | some kv =>
      simp only []
      rw [ih (btInsert m kv.1 (.str kv.2)) w]

/-- A rejected override leaves the map unchanged, adds one warning and the
merge continues over the remaining overrides. -/
theorem mergeOverrides_cons_none (op : List Nat) (ops : List (List Nat))
    (m : List (List Nat × Value)) (h : parseOverride op = none) :
    mergeOverrides m (op :: ops) =
      ((mergeOverrides m ops).1, (mergeOverrides m ops).2 + 1) := by
  unfold mergeOverrides
  simp only [List.foldl_cons, mergeStep, h]
  exact mergeStep_counter ops m 1

/-- An accepted override inserts its pair as a string value and the merge
continues over the remaining overrides. -/
theorem mergeOverrides_cons_some (op : List Nat) (ops : List (List Nat))
    (m : List (List Nat × Value)) (k v : List Nat)
    (h : parseOverride op = some (k, v)) :
    mergeOverrides m (op :: ops) = mergeOverrides (btInsert m k (.str v)) ops := by
  unfold mergeOverrides
  simp only [List.foldl_cons, mergeStep, h]

/-- Looking up the inserted key finds the inserted value. -/
theorem lookupKey_btInsert_self (m : List (List Nat × Value)) (k : List Nat)
    (v : Value) : lookupKey (btInsert m k v) k = some v := by
  induction m with
  | nil => simp [btInsert, lookupKey]
  | cons kv rest ih =>
    obtain ⟨ka, va⟩ := kv
    rw [btInsert]
    by_cases h1 : k < ka
    · rw [if_pos h1]
      simp [lookupKey]
    · rw [if_neg h1]
      by_cases h2 : k = ka
      · rw [if_pos h2]
        simp [lookupKey]
      · rw [if_neg h2, lookupKey, if_neg h2]
        exact ih

/-- Looking up any other key is unaffected by an insertion. -/
theorem lookupKey_btInsert_ne (m : List (List Nat × Value)) (k q : List Nat)
    (v : Value) (h : q ≠ k) : lookupKey (btInsert m k v) q = lookupKey m q := by
  induction m with
  | nil => simp [btInsert, lookupKey, h]
  | cons kv rest ih =>
    obtain ⟨ka, va⟩ := kv
    rw [btInsert]
    by_cases h1 : k < ka
    · rw [if_pos h1, lookupKey, if_neg h]
    · rw [if_neg h1]
      by_cases h2 : k = ka
      · subst h2
        rw [if_pos rfl, lookupKey, if_neg h, lookupKey, if_neg h]
      · rw [if_neg h2, lookupKey, lookupKey]
        by_cases h3 : q = ka
        · rw [if_pos h3, if_pos h3]
        · rw [if_neg h3, if_neg h3]
          exact ih

end RawTwitter

namespace RawTwitter

/-! ### Claim C7 -/

/-- Counterexample to claim C7: the override a=b=c is split by
`split.take(2)`, not at the first equals sign only, so the stored value is b
and the trailing =c is discarded rather than retained. -/
theorem override_value_truncated :
    parseOverride (bytes "a=b=c") = some (bytes "a", bytes "b") ∧
    (bytes "b" : List Nat) ≠ bytes "b=c" := by
  exact ⟨by decide, by decide⟩

/-- Claim C7 (amended): an override is split on every equals sign and only
the first two segments are kept, so a well-formed override yields its key
and the segment between the first and second equals sign (anything after a
second equals sign is discarded); an override with no equals sign or with an
empty key is skipped with one warning while the merge continues, never
aborting; an accepted override replaces any existing value for its key. -/
theorem override_split_semantics (k v w op : List Nat)
    (m : List (List Nat × Value)) (ops : List (List Nat))
    (hk : k ≠ []) (hks : 0x3D ∉ k) (hvs : 0x3D ∉ v) (hop : 0x3D ∉ op) :
    parseOverride (k ++ 0x3D :: v) = some (k, v) ∧
    parseOverride (k ++ 0x3D :: (v ++ 0x3D :: w)) = some (k, v) ∧
    parseOverride op = none ∧
    parseOverride (0x3D :: w) = none ∧
    mergeOverrides m (op :: ops) =
      ((mergeOverrides m ops).1, (mergeOverrides m ops).2 + 1) ∧
    mergeOverrides m ((k ++ 0x3D :: v) :: ops) =
      mergeOverrides (btInsert m k (.str v)) ops ∧
    lookupKey (btInsert m k (.str v)) k = some (.str v) := by
  have h1 := parseOverride_single k v hk hks hvs
  have h3 := parseOverride_no_eq op hop
  exact ⟨h1, parseOverride_two_eq k v w hk hks hvs, h3, parseOverride_empty_key w,
    mergeOverrides_cons_none op ops m h3,
    mergeOverrides_cons_some _ ops m k v h1,
    lookupKey_btInsert_self m k (.str v)⟩

/-- Witness for C7 (amended): the truncating parse at a concrete input. -/
theorem override_split_semantics_witness :
    parseOverride (bytes "a" ++ 0x3D :: (bytes "b" ++ 0x3D :: bytes "c")) =
      some (bytes "a", bytes "b") :=
  (override_split_semantics (bytes "a") (bytes "b") (bytes "c") (bytes "x") [] []
    (by decide) (by decide) (by decide) (by decide)).2.1

/-! ### Claim C9 -/

/-- Claim C9: an override of the form key= (non-empty key, empty value after
the first equals sign) is accepted, not skipped: the key is bound to the
empty string, and no warning is counted. -/
theorem override_empty_value_accepted (k : List Nat) (m : List (List Nat × Value))
    (hk : k ≠ []) (hks : 0x3D ∉ k) :
    parseOverride (k ++ [0x3D]) = some (k, []) ∧
    mergeOverrides m [k ++ [0x3D]] = (btInsert m k (.str []), 0) ∧
    lookupKey (btInsert m k (.str [])) k = some (.str []) := by
  have hp : parseOverride (k ++ [0x3D]) = some (k, []) :=
    parseOverride_single k [] hk hks (by simp)
  refine ⟨hp, ?_, lookupKey_btInsert_self m k (.str [])⟩
  rw [mergeOverrides_cons_some _ _ _ _ _ hp]
  rfl

/-- Witness for C9 at a concrete key and map. -/
theorem override_empty_value_accepted_witness :
    parseOverride (bytes "a" ++ [0x3D]) = some (bytes "a", []) ∧
    mergeOverrides [(bytes "a", Value.num (bytes "1"))] [bytes "a" ++ [0x3D]] =
      (btInsert [(bytes "a", Value.num (bytes "1"))] (bytes "a") (.str []), 0) ∧
    lookupKey (btInsert [(bytes "a", Value.num (bytes "1"))] (bytes "a") (.str []))
      (bytes "a") = some (.str []) :=
  override_empty_value_accepted (bytes "a") [(bytes "a", Value.num (bytes "1"))]
    (by decide) (by decide)

/-! ### Claim C10 -/

/-- Claim C10: any binding the override merge changed or added holds a
string value, whatever the type of the overridden template parameter was;
and a string value is percent-encoded in its pair string while a numeric
value is emitted as literal text, so an overridden numeric parameter changes
treatment. -/
theorem override_values_are_strings (ops : List (List Nat))
    (m : List (List Nat × Value)) (k s t : List Nat) (w : Value)
    (hw : lookupKey ((mergeOverrides m ops).1) k = some w)
    (hm : lookupKey m k ≠ some w) :
    w.isStr = true ∧
    requestPairString k (.str s) = some (k ++ 0x3D :: utf8_percent_encode s) ∧
    requestPairString k (.num t) = some (k ++ 0x3D :: t) := by
  refine ⟨?_, rfl, rfl⟩
  clear s t
  induction ops generalizing m with
  | nil =>
    simp only [mergeOverrides, List.foldl_nil] at hw
    exact absurd hw hm
  | cons op ops ih =>
    cases hp : parseOverride op with
    | none =>
      rw [mergeOverrides_cons_none _ _ _ hp] at hw
      exact ih _ hw hm
    | some kv =>
      rw [mergeOverrides_cons_some _ _ _ kv.1 kv.2 (by rw [hp])] at hw
      by_cases hkk : lookupKey (btInsert m kv.1 (.str kv.2)) k = some w
      · by_cases he : k = kv.1
        · subst he
          rw [lookupKey_btInsert_self] at hkk
          cases hkk
          rfl
        · rw [lookupKey_btInsert_ne m kv.1 k (.str kv.2) he] at hkk
          exact absurd hkk hm
      · exact ih _ hw hkk

/-- Witness for C10: overriding a numeric template parameter with count=10
leaves a string binding. -/
theorem override_values_are_strings_witness :
    Value.isStr (.str (bytes "10")) = true ∧
    requestPairString (bytes "count") (.str (bytes "5")) =
      some (bytes "count" ++ 0x3D :: utf8_percent_encode (bytes "5")) ∧
    requestPairString (bytes "count") (.num (bytes "5")) =
      some (bytes "count" ++ 0x3D :: bytes "5") :=
  override_values_are_strings [bytes "count=10"]
    [(bytes "count", Value.num (bytes "5"))] (bytes "count") (bytes "5") (bytes "5")
    (.str (bytes "10")) (by decide) (by decide)

/-! ### Claim C8 -/

/-- Counterexample to claim C8: a template containing an array-valued
parameter does not always abort; when a CLI override replaces that
parameter, the request is sent. -/
theorem nonscalar_masked_by_override :
    (runMain arrayTemplate [bytes "ids=1"] []).isSome = true := by decide

/-- Claim C8 (amended): when the merged parameter set still contains a
non-scalar value (the offending template parameter was not replaced by an
override), the pair construction hits the panic arm, modelled as failure,
and no HTTP request is sent. -/
theorem nonscalar_param_aborts (t : Template) (ov : List (List Nat))
    (op : List (List Nat × List Nat)) (k : List Nat) (v : Value)
    (hmem : (k, v) ∈ (mergeOverrides t.parameters ov).1)
    (hbad : v.isScalar = false) :
    runMain t ov op = none := by
  have henc : encodeValue v = none := by
    cases v <;> simp [Value.isScalar] at hbad <;> rfl
  have hnone : ∀ l : List (List Nat × Value), (k, v) ∈ l → mapPairStrings l = none := by
    intro l hl
    induction l with
    | nil => cases hl
    | cons kv rest ih =>
      rcases List.mem_cons.1 hl with heq | hm2
      · have hkv : requestPairString kv.1 kv.2 = none := by
          rw [← heq]
          simp [requestPairString, henc]
        rw [mapPairStrings, hkv]
      · rw [mapPairStrings, ih hm2]
        cases requestPairString kv.1 kv.2 <;> rfl
  have hc : connected_params ((mergeOverrides t.parameters ov).1) op = none := by
    unfold connected_params normalizedPairs
    rw [hnone _ hmem]
    rfl
  unfold runMain
  rw [hc]

/-- Witness for C8 (amended): with no override, the array-valued template
aborts before any request. -/
theorem nonscalar_param_aborts_witness :
    runMain arrayTemplate [] [] = none :=
  nonscalar_param_aborts arrayTemplate [] [] (bytes "ids") .arr (by decide) (by decide)

end RawTwitter

namespace RawTwitter

/-! ### Map-building permutation lemmas for claim C6 -/

/-- Inserting a fresh key is, up to permutation, consing the binding. -/
theorem btInsert_perm_fresh (m : List (List Nat × Value)) (k : List Nat) (v : Value)
    (hk : ∀ kv ∈ m, kv.1 ≠ k) : (btInsert m k v).Perm ((k, v) :: m) := by
  induction m with
  | nil => exact List.Perm.refl _
  | cons kv rest ih =>
    obtain ⟨ka, va⟩ := kv
    have hka : ka ≠ k := hk (ka, va) (List.mem_cons_self _ _)
    rw [btInsert]
    by_cases h1 : k < ka
    · rw [if_pos h1]
    · rw [if_neg h1, if_neg (fun e => hka e.symm)]
      have ihp := ih (fun kv hm => hk kv (List.mem_cons_of_mem _ hm))
      exact (ihp.cons (ka, va)).trans (List.Perm.swap (k, v) (ka, va) rest)

/-- Folding a list of bindings with pairwise-distinct keys into a map gives,
up to permutation, the list appended to the map. -/
theorem btFold_perm : ∀ (l m : List (List Nat × Value)),
    (m.map Prod.fst ++ l.map Prod.fst).Nodup →
    (l.foldl (fun acc kv => btInsert acc kv.1 kv.2) m).Perm (l ++ m) := by
  intro l
  induction l with
  | nil =>
    intro m h
    simp
  | cons kv l ih =>
    intro m h
    obtain ⟨k, v⟩ := kv
    simp only [List.map_cons] at h
    have hdis := List.nodup_append.1 h
    have hkm : ∀ p ∈ m, p.1 ≠ k := by
      intro p hp he
      exact hdis.2.2 (List.mem_map_of_mem Prod.fst hp)
        (by rw [he]; exact List.mem_cons_self _ _)
    have hperm1 : (btInsert m k v).Perm ((k, v) :: m) := btInsert_perm_fresh m k v hkm
    have hkeys : ((btInsert m k v).map Prod.fst).Perm (k :: m.map Prod.fst) := by
      simpa using hperm1.map Prod.fst
    have hp2 : ((btInsert m k v).map Prod.fst ++ l.map Prod.fst).Perm
        (m.map Prod.fst ++ k :: l.map Prod.fst) :=
      (hkeys.append_right (l.map Prod.fst)).trans List.perm_middle.symm
    have hnodup2 : ((btInsert m k v).map Prod.fst ++ l.map Prod.fst).Nodup :=
      hp2.nodup_iff.2 h
    have ihp := ih (btInsert m k v) hnodup2
    simp only [List.foldl_cons]
    exact (ihp.trans (hperm1.append_left l)).trans List.perm_middle

/-- When every pair encodes, `mapPairStrings` collects all the pair strings. -/
theorem mapPairStrings_all_some (l : List (List Nat × Value))
    (h : ∀ kv ∈ l, (requestPairString (Prod.fst kv) (Prod.snd kv)).isSome = true) :
    mapPairStrings l = some (l.filterMap (fun kv => requestPairString kv.1 kv.2)) := by
  induction l with
  | nil => rfl
  | cons kv rest ih =>
    have hh := h kv (List.mem_cons_self _ _)
    cases hkv : requestPairString kv.1 kv.2 with
    | none => rw [hkv] at hh; cases hh
    | some p =>
      rw [mapPairStrings, hkv, ih (fun x hx => h x (List.mem_cons_of_mem _ hx))]
      simp [List.filterMap_cons, hkv]

/-- When some pair fails to encode, `mapPairStrings` fails. -/
theorem mapPairStrings_has_none (l : List (List Nat × Value))
    (h : ¬ ∀ kv ∈ l, (requestPairString (Prod.fst kv) (Prod.snd kv)).isSome = true) :
    mapPairStrings l = none := by
  induction l with
  | nil => exact absurd (fun kv hkv => absurd hkv (List.not_mem_nil kv)) h
  | cons kv rest ih =>
    rw [mapPairStrings]
    by_cases hh : (requestPairString kv.1 kv.2).isSome = true
    · obtain ⟨p, hp⟩ := Option.isSome_iff_exists.1 hh
      rw [hp]
      have hrest : ¬ ∀ x ∈ rest, (requestPairString (Prod.fst x) (Prod.snd x)).isSome = true := by
        intro hall
        refine h (fun x hx => ?_)
        rcases List.mem_cons.1 hx with rfl | hx2
        · exact hh
        · exact hall x hx2
      rw [ih hrest]
    · cases hkv : requestPairString kv.1 kv.2 with
      | none => cases mapPairStrings rest <;> rfl
      | some p => rw [hkv] at hh; simp at hh

end RawTwitter

namespace RawTwitter

/-! ### Claim C6 -/

/-- Claim C6: two maps built from the same logical parameters supplied in
different insertion orders yield the identical normalized parameter string,
because the combined encoded pair strings are sorted byte-lexicographically
before joining with ampersands; and the pair list underlying the normalized
string is sorted ascending. -/
theorem normalized_string_order_independent
    (l₁ l₂ : List (List Nat × Value)) (op : List (List Nat × List Nat))
    (ps : List (List Nat))
    (hp : l₁.Perm l₂) (hnd : (l₁.map Prod.fst).Nodup)
    (hps : normalizedPairs (btFromList l₁) op = some ps) :
    connected_params (btFromList l₁) op = connected_params (btFromList l₂) op ∧
    List.Sorted (· ≤ ·) ps := by
  have hb₁ : (btFromList l₁).Perm l₁ := by
    have := btFold_perm l₁ [] (by simpa using hnd)
    simpa using this
  have hnd₂ : (l₂.map Prod.fst).Nodup := ((hp.map Prod.fst).nodup_iff).1 hnd
  have hb₂ : (btFromList l₂).Perm l₂ := by
    have := btFold_perm l₂ [] (by simpa using hnd₂)
    simpa using this
  have hbb : (btFromList l₁).Perm (btFromList l₂) :=
    (hb₁.trans hp).trans hb₂.symm
  by_cases hall : ∀ kv ∈ btFromList l₁, (requestPairString (Prod.fst kv) (Prod.snd kv)).isSome = true
  · have hall₂ : ∀ kv ∈ btFromList l₂, (requestPairString (Prod.fst kv) (Prod.snd kv)).isSome = true :=
      fun kv hkv => hall kv (hbb.mem_iff.2 hkv)
    have hm₁ := mapPairStrings_all_some _ hall
    have hm₂ := mapPairStrings_all_some _ hall₂
    have hfm : ((btFromList l₁).filterMap (fun kv => requestPairString kv.1 kv.2)).Perm
        ((btFromList l₂).filterMap (fun kv => requestPairString kv.1 kv.2)) :=
      hbb.filterMap _
    have heq : List.insertionSort (· ≤ ·)
          ((btFromList l₁).filterMap (fun kv => requestPairString kv.1 kv.2) ++ oauthPairs op) =
        List.insertionSort (· ≤ ·)
          ((btFromList l₂).filterMap (fun kv => requestPairString kv.1 kv.2) ++ oauthPairs op) := by
      refine List.eq_of_perm_of_sorted ?_
        (List.sorted_insertionSort _ _) (List.sorted_insertionSort _ _)
      refine (List.perm_insertionSort _ _).trans ?_
      refine ((hfm.append_right (oauthPairs op)).trans ?_)
      exact (List.perm_insertionSort _ _).symm
    refine ⟨?_, ?_⟩
    · unfold connected_params normalizedPairs
      rw [hm₁, hm₂]
      simp only [Option.map_some']
      rw [heq]
    · unfold normalizedPairs at hps
      rw [hm₁] at hps
      simp only [Option.map_some', Option.some.injEq] at hps
      rw [← hps]
      exact List.sorted_insertionSort _ _
  · have hnone := mapPairStrings_has_none _ hall
    unfold normalizedPairs at hps
    rw [hnone] at hps
    cases hps

/-- Witness for C6: the same two bindings in both insertion orders produce
the same normalized parameter string. -/
theorem normalized_string_order_independent_witness :
    connected_params
        (btFromList [(bytes "b", Value.num (bytes "1")), (bytes "a", Value.str (bytes "x"))])
        [(bytes "oauth_version", bytes "1.0")] =
      connected_params
        (btFromList [(bytes "a", Value.str (bytes "x")), (bytes "b", Value.num (bytes "1"))])
        [(bytes "oauth_version", bytes "1.0")] :=
  (normalized_string_order_independent
    [(bytes "b", Value.num (bytes "1")), (bytes "a", Value.str (bytes "x"))]
    [(bytes "a", Value.str (bytes "x")), (bytes "b", Value.num (bytes "1"))]
    [(bytes "oauth_version", bytes "1.0")]
    [bytes "a=x", bytes "b=1", bytes "oauth_version=1.0"]
    (by decide) (by decide) (by decide)).1

end RawTwitter
